import Mathlib

/-!
Verification of the gocrud item repository: a CRUD service persisting items
in a key-value/set store ("Redis"), maintaining secondary indexes (an
all-items set, one set per type value, one set per tag value) alongside the
primary records.

The store state is embedded shallowly: the per-item records as a function
from identifiers to optional items, and each Redis set as a duplicate-free
list of member strings with SADD / SREM / SMEMBERS / SINTER as list
operations.

The Go code serializes each record with encoding/json before writing it and
deserializes on read. On the struct fields (id, type, tags, timestamps) the
codec round-trips values exactly, so the claims about identifiers, indexes
and field preservation are settled against the value-level `SaveItem` /
`GetItem`, which store the item record itself. The raw bytes of the opaque
`data` field (a json.RawMessage) are NOT preserved verbatim by the encoder:
json.Marshal runs them through its compact-and-escape step. That byte-level
behaviour is modelled by `marshalData` / `marshalItem`, and the byte-level
save is `SaveItemBytes` (the value-level save of the marshalled record);
the byte-identity claim about `data` is settled against those.

There are two versions of the store in the repository: the original one
(`part_000`, type index only — embedded as the `V0` definitions where they
differ) and the tag-aware one (`part_001` — embedded as `SaveItem`,
`GetItem`, `DeleteItem`, `ListItems`).
-/

namespace Gocrud

/-- The persisted item record (model.go `Item`). `data` holds the raw bytes
of the item's JSON payload, which the repository treats as opaque.
Timestamps are modelled as natural numbers. -/
structure Item where
  id : String
  type : String
  tags : List String
  data : String
  createdAt : Nat
  lastModified : Nat
deriving DecidableEq

/-- The payload of a PUT /items/:id request (model.go `UpdateItemRequest`). -/
structure UpdateItemRequest where
  type : String
  tags : List String
  data : String
deriving DecidableEq

/-- The error taxonomy of the repository (errors.go): the distinguished
not-found signal `ErrNotFound`, and the validation failure reported by the
handlers as HTTP 400. -/
inductive Err where
  | notFound
  | invalidInput
deriving DecidableEq

/-- The state of the Redis database as used by the store: the per-item
records (keys `item:<id>`), the all-items set (key `items`), the per-type
index sets (keys `items:type:<t>`), and the per-tag index sets
(keys `items:tag:<g>`). -/
structure Store where
  records : String → Option Item
  items : List String
  typeIdx : String → List String
  tagIdx : String → List String

/-- Redis SADD on a set modelled as a duplicate-free list. -/
def sadd (l : List String) (x : String) : List String :=
  if x ∈ l then l else l ++ [x]

/-- Redis SREM. -/
def srem (l : List String) (x : String) : List String :=
  l.filter (fun y => y != x)

/-- Redis SINTER of two sets. -/
def sinter (l1 l2 : List String) : List String :=
  l1.filter (fun x => x ∈ l2)

/-- SADD on one set of a keyed family of sets (such as the type indexes). -/
def idxAdd (f : String → List String) (k x : String) : String → List String :=
  fun k2 => if k2 = k then sadd (f k) x else f k2

/-- SREM on one set of a keyed family of sets. -/
def idxRem (f : String → List String) (k x : String) : String → List String :=
  fun k2 => if k2 = k then srem (f k) x else f k2

/-- SREM of `x` from the index set of every tag in `tags`, in order
(the cleanup loop over the old tags in `SaveItem` and `DeleteItem`). -/
def remTags (x : String) (tags : List String) (f : String → List String) :
    String → List String :=
  tags.foldl (fun f2 g => idxRem f2 g x) f

/-- SADD of `x` to the index set of every tag in `tags`, in order
(the loop over the new tags in `SaveItem`). -/
def addTags (x : String) (tags : List String) (f : String → List String) :
    String → List String :=
  tags.foldl (fun f2 g => idxAdd f2 g x) f

/-- GetItem retrieves an item by ID (GET + json.Unmarshal); a missing key is
reported as the not-found signal. Unmarshalling returns exactly the stored
record: struct fields as their stored values, and the `data` field as the
exact bytes of that value in the stored document — which, when the record
was written by json.Marshal, are the compacted and escaped bytes, not
necessarily the bytes the caller originally supplied (see `marshalData`). -/
def GetItem (s : Store) (id : String) : Except Err Item :=
  match s.records id with
  | some it => Except.ok it
  | none => Except.error Err.notFound

/-- The previous-version lookup at the start of `SaveItem`: the fetch result,
with the not-found error tolerated (nil old item). -/
def saveOld (s : Store) (id : String) : Option Item :=
  match GetItem s id with
  | Except.ok it => some it
  | Except.error _ => none

/-- The unconditional part of the `SaveItem` pipeline: SET of the serialized
record under `item:<id>` and SADD of the id to the all-items set. The
record stored here is whatever item the caller passes: the value-level
`SaveItem` passes the in-memory record (adequate for every field the codec
round-trips as a value), while the byte-faithful `SaveItemBytes` passes the
marshalled record, whose `data` bytes json.Marshal has compacted and
escaped (see `marshalItem`). -/
def saveBase (s : Store) (item : Item) : Store :=
  { s with
    records := fun k => if k = item.id then some item else s.records k
    items := sadd s.items item.id }

/-- The old-type cleanup step of `SaveItem`: if the previous version's type
differs from the new type, SREM the id from the old type's index. -/
def remOldType (s1 : Store) (item old : Item) : Store :=
  if old.type ≠ item.type then
    { s1 with typeIdx := idxRem s1.typeIdx old.type item.id }
  else s1

/-- The stale-index cleanup of `SaveItem`, run only when a previous version
of the item existed: old-type removal followed by SREM of the id from every
old tag's index. -/
def cleanupOld (s1 : Store) (item : Item) : Option Item → Store
  | none => s1
  | some old =>
      { remOldType s1 item old with
        tagIdx := remTags item.id old.tags (remOldType s1 item old).tagIdx }

/-- The state after the record write, all-items SADD and stale-index
cleanup phases of `SaveItem`. -/
def saveCleaned (s : Store) (item : Item) : Store :=
  cleanupOld (saveBase s item) item (saveOld s item.id)

/-- SaveItem of the tag-aware store (`part_001`): previous-version lookup,
record write, all-items SADD, stale type/tag index cleanup, then SADD of
the id to the new type's index and to every new tag's index. -/
def SaveItem (s : Store) (item : Item) : Store :=
  { saveCleaned s item with
    typeIdx := idxAdd (saveCleaned s item).typeIdx item.type item.id
    tagIdx := addTags item.id item.tags (saveCleaned s item).tagIdx }

/-- The HTML escaping Go's JSON encoder applies inside string literals:
the characters <, > and & become their lowercase \u escapes (as do the line
separators U+2028 and U+2029); every other character is copied verbatim.
Modelled from the behaviour of Go's encoding/json, which is library code
outside this repository. -/
def escapeHTMLChar (c : Char) : List Char :=
  if c = '<' then ['\\', 'u', '0', '0', '3', 'c']
  else if c = '>' then ['\\', 'u', '0', '0', '3', 'e']
  else if c = '&' then ['\\', 'u', '0', '0', '2', '6']
  else if c.toNat = 0x2028 then ['\\', 'u', '2', '0', '2', '8']
  else if c.toNat = 0x2029 then ['\\', 'u', '2', '0', '2', '9']
  else [c]

/-- The whitespace characters Go's JSON scanner treats as insignificant
between tokens. -/
def isJsonSpace (c : Char) : Bool :=
  c == ' ' || c == '\t' || c == '\n' || c == '\r'

/-- The compact-and-escape scan Go's json.Marshal runs over the bytes of a
json.RawMessage value. The first flag says whether the scan is inside a
string literal, the second whether the previous character was an unconsumed
backslash escape (whose escaped character is copied verbatim). Outside
string literals insignificant whitespace is dropped; inside them characters
pass through `escapeHTMLChar`. Modelled from the behaviour of Go's
encoding/json, which is library code outside this repository. -/
def compactGo : Bool → Bool → List Char → List Char
  | _, _, [] => []
  | inStr, true, c :: cs => c :: compactGo inStr false cs
  | true, false, c :: cs =>
      if c = '\\' then '\\' :: compactGo true true cs
      else if c = '"' then '"' :: compactGo false false cs
      else escapeHTMLChar c ++ compactGo true false cs
  | false, false, c :: cs =>
      if c = '"' then '"' :: compactGo true false cs
      else if isJsonSpace c then compactGo false false cs
      else c :: compactGo false false cs

/-- What json.Marshal makes of the raw `data` bytes of a record: the
compact, HTML-escaped rendering of the original bytes. -/
def marshalData (d : String) : String :=
  String.mk (compactGo false false d.toList)

/-- The record as json.Marshal serializes it for storage: the struct fields
survive as values, while the raw json.RawMessage `data` bytes pass through
the encoder's compact-and-escape step. -/
def marshalItem (it : Item) : Item :=
  { it with data := marshalData it.data }

/-- Byte-faithful SaveItem: at the byte level, the record part_001's
SaveItem persists is the marshalled one, so the byte-level save is the
value-level `SaveItem` applied to `marshalItem item`. The index pipeline is
unaffected (the id, type and tags used for the index keys are plain values
the codec round-trips); only the stored `data` bytes differ from
`SaveItem s item`. -/
def SaveItemBytes (s : Store) (item : Item) : Store :=
  SaveItem s (marshalItem item)

/-- The state written by a successful `DeleteItem` of record `item` at `id`:
DEL of the record, SREM from the all-items set, from the item's type index
and from every one of the item's tag indexes. -/
def deleteState (s : Store) (id : String) (item : Item) : Store :=
  { records := fun k => if k = id then none else s.records k
    items := srem s.items id
    typeIdx := idxRem s.typeIdx item.type id
    tagIdx := remTags id item.tags s.tagIdx }

/-- DeleteItem of the tag-aware store (`part_001`): fetch the current record
(propagating not-found as an error), then delete the record and every index
membership in one pipeline. -/
def DeleteItem (s : Store) (id : String) : Except Err Store :=
  match GetItem s id with
  | Except.error e => Except.error e
  | Except.ok item => Except.ok (deleteState s id item)

/-- A Redis set key named by `ListItems`: a type index or a tag index
(the `items:type:` and `items:tag:` namespaces of the source keep the two
dimensions from colliding; the embedding keeps them apart by constructor). -/
inductive SetKey where
  | typeKey (t : String)
  | tagKey (g : String)
deriving DecidableEq

/-- Redis SMEMBERS of a named index set. -/
def smembers (s : Store) : SetKey → List String
  | SetKey.typeKey t => s.typeIdx t
  | SetKey.tagKey g => s.tagIdx g

/-- The id-selection branch of `ListItems`: no keys — SMEMBERS of the
all-items set; one key — SMEMBERS of that set; several keys — SINTER. -/
def interSets (s : Store) : List SetKey → List String
  | [] => s.items
  | [k] => smembers s k
  | k :: rest => rest.foldl (fun acc k2 => sinter acc (smembers s k2)) (smembers s k)

/-- The identifiers selected by `ListItems` for a type filter (empty string
means no type filter) and a list of tag filters. -/
def selectIds (s : Store) (typeFilter : String) (tagFilters : List String) :
    List String :=
  interSets s
    ((if typeFilter ≠ "" then [SetKey.typeKey typeFilter] else []) ++
      tagFilters.map SetKey.tagKey)

/-- The fetch loop of `ListItems`: GET each selected id and collect the
records that exist, silently skipping ids whose record is gone
(the `continue` on a nil reply). -/
def fetchItems (s : Store) (ids : List String) : List Item :=
  ids.filterMap s.records

/-- ListItems of the tag-aware store (`part_001`): select ids by the type
and tag filters, then resolve each surviving id to its record. -/
def ListItems (s : Store) (typeFilter : String) (tagFilters : List String) :
    List Item :=
  fetchItems s (selectIds s typeFilter tagFilters)

/-- ListItems of the original store (`part_000`): all items, or the members
of the one type index when a type filter is given, then the same fetch
loop. -/
def ListItemsV0 (s : Store) (typeFilter : String) : List Item :=
  fetchItems s
    (if typeFilter = "" then s.items else s.typeIdx typeFilter)

/-- The whitespace trimming applied by the handlers' validation
(strings.TrimSpace): drop leading and trailing whitespace characters. -/
def trimSpace (s : String) : String :=
  String.mk
    ((s.toList.dropWhile Char.isWhitespace).reverse.dropWhile
        Char.isWhitespace).reverse

/-- The query parameters of a GET /items request: the `type` value and the
`tag` values. -/
structure ListQuery where
  typeParam : String
  tagParams : List String

/-- handleListItems (handlers.go): reads only the `type` query parameter
and calls the store's list with the type filter alone — the `tag` query
parameters are not read — then replies 200 with the JSON array of the
returned records. -/
def handleListItems (s : Store) (q : ListQuery) : Nat × List Item :=
  (200, ListItemsV0 s q.typeParam)

/-- handleUpdateItem (handlers.go): validate the payload (non-blank type and
non-empty data; the source additionally re-parses `data` to check it is
well-formed JSON, a check that cannot fail for the opaque byte strings of
this embedding), fetch the current record (404 on not-found), overwrite
type, tags and data, refresh lastModified to the current time, and save.
Returns the new store state and the updated record echoed to the client. -/
def handleUpdateItem (s : Store) (id : String) (req : UpdateItemRequest)
    (now : Nat) : Except Err (Store × Item) :=
  if trimSpace req.type = "" ∨ req.data = "" then Except.error Err.invalidInput
  else
    match GetItem s id with
    | Except.error e => Except.error e
    | Except.ok item =>
        Except.ok
          (SaveItem s { item with type := req.type, tags := req.tags,
                                  data := req.data, lastModified := now },
           { item with type := req.type, tags := req.tags,
                       data := req.data, lastModified := now })

/-- The store with no records and every index empty (a freshly flushed
Redis database). -/
def emptyStore : Store :=
  { records := fun _ => none
    items := []
    typeIdx := fun _ => []
    tagIdx := fun _ => [] }

/-- A mutating repository operation. -/
inductive Op where
  | save (item : Item)
  | del (id : String)

/-- Apply one operation to the store. A failed delete executes no Redis
command, so it leaves the state unchanged. -/
def applyOp (s : Store) : Op → Store
  | Op.save it => SaveItem s it
  | Op.del id =>
      match DeleteItem s id with
      | Except.ok s2 => s2
      | Except.error _ => s

/-- The store reached from the empty store by a sequence of operations. -/
def runOps (ops : List Op) : Store :=
  ops.foldl applyOp emptyStore

/-- A store state reachable from the empty store by save/delete
operations. -/
def Reachable (s : Store) : Prop :=
  ∃ ops, s = runOps ops

/-- Well-formedness of a store state: the all-items set holds exactly the
ids with a live record, every record is stored under its own id, and each
type/tag index holds exactly the ids of the records currently having that
type/tag. -/
structure Wf (s : Store) : Prop where
  items_live : ∀ id, id ∈ s.items ↔ (s.records id).isSome = true
  key_consistent : ∀ id it, s.records id = some it → it.id = id
  typeIdx_exact : ∀ t id,
    id ∈ s.typeIdx t ↔ ∃ it, s.records id = some it ∧ it.type = t
  tagIdx_exact : ∀ g id,
    id ∈ s.tagIdx g ↔ ∃ it, s.records id = some it ∧ g ∈ it.tags

/-! ### Membership lemmas for the Redis set operations -/

theorem mem_sadd (l : List String) (x y : String) :
    y ∈ sadd l x ↔ y ∈ l ∨ y = x := by
  unfold sadd
  split
  · constructor
    · exact Or.inl
    · rintro (h | rfl) <;> assumption
  · simp [List.mem_append]

theorem mem_srem (l : List String) (x y : String) :
    y ∈ srem l x ↔ y ∈ l ∧ y ≠ x := by
  simp [srem, List.mem_filter]

theorem mem_sinter (l1 l2 : List String) (y : String) :
    y ∈ sinter l1 l2 ↔ y ∈ l1 ∧ y ∈ l2 := by
  simp [sinter, List.mem_filter]

theorem mem_idxAdd (f : String → List String) (k x k2 y : String) :
    y ∈ idxAdd f k x k2 ↔ y ∈ f k2 ∨ (k2 = k ∧ y = x) := by
  unfold idxAdd
  by_cases h : k2 = k
  · subst h; rw [if_pos rfl, mem_sadd]; tauto
  · rw [if_neg h]; tauto

theorem mem_idxRem (f : String → List String) (k x k2 y : String) :
    y ∈ idxRem f k x k2 ↔ y ∈ f k2 ∧ ¬(k2 = k ∧ y = x) := by
  unfold idxRem
  by_cases h : k2 = k
  · subst h; rw [if_pos rfl, mem_srem]; tauto
  · rw [if_neg h]; tauto

theorem mem_remTags (tags : List String) (x : String) (f : String → List String)
    (g y : String) :
    y ∈ remTags x tags f g ↔ y ∈ f g ∧ ¬(g ∈ tags ∧ y = x) := by
  induction tags generalizing f with
  | nil => simp [remTags]
  | cons t ts ih =>
      rw [remTags, List.foldl_cons]
      rw [show List.foldl (fun f2 g2 => idxRem f2 g2 x) (idxRem f t x) ts =
            remTags x ts (idxRem f t x) from rfl]
      rw [ih, mem_idxRem, List.mem_cons]
      tauto

theorem mem_addTags (tags : List String) (x : String) (f : String → List String)
    (g y : String) :
    y ∈ addTags x tags f g ↔ y ∈ f g ∨ (g ∈ tags ∧ y = x) := by
  induction tags generalizing f with
  | nil => simp [addTags]
  | cons t ts ih =>
      rw [addTags, List.foldl_cons]
      rw [show List.foldl (fun f2 g2 => idxAdd f2 g2 x) (idxAdd f t x) ts =
            addTags x ts (idxAdd f t x) from rfl]
      rw [ih, mem_idxAdd, List.mem_cons]
      tauto

/-! ### Field-level characterization of SaveItem -/

theorem saveOld_eq (s : Store) (id : String) : saveOld s id = s.records id := by
  unfold saveOld GetItem
  cases s.records id <;> rfl

theorem remOldType_records (s1 : Store) (item old : Item) :
    (remOldType s1 item old).records = s1.records := by
  unfold remOldType; split <;> rfl

theorem remOldType_items (s1 : Store) (item old : Item) :
    (remOldType s1 item old).items = s1.items := by
  unfold remOldType; split <;> rfl

theorem remOldType_tagIdx (s1 : Store) (item old : Item) :
    (remOldType s1 item old).tagIdx = s1.tagIdx := by
  unfold remOldType; split <;> rfl

theorem remOldType_typeIdx (s1 : Store) (item old : Item) :
    (remOldType s1 item old).typeIdx =
      if old.type ≠ item.type then idxRem s1.typeIdx old.type item.id
      else s1.typeIdx := by
  unfold remOldType; split <;> simp_all

theorem cleanupOld_records (s1 : Store) (item : Item) (o : Option Item) :
    (cleanupOld s1 item o).records = s1.records := by
  cases o with
  | none => rfl
  | some old => rw [cleanupOld]; exact remOldType_records s1 item old

theorem cleanupOld_items (s1 : Store) (item : Item) (o : Option Item) :
    (cleanupOld s1 item o).items = s1.items := by
  cases o with
  | none => rfl
  | some old => rw [cleanupOld]; exact remOldType_items s1 item old

theorem cleanupOld_typeIdx (s1 : Store) (item : Item) (o : Option Item) :
    (cleanupOld s1 item o).typeIdx =
      match o with
      | none => s1.typeIdx
      | some old =>
          if old.type ≠ item.type then idxRem s1.typeIdx old.type item.id
          else s1.typeIdx := by
  cases o with
  | none => rfl
  | some old => rw [cleanupOld]; exact remOldType_typeIdx s1 item old

theorem cleanupOld_tagIdx (s1 : Store) (item : Item) (o : Option Item) :
    (cleanupOld s1 item o).tagIdx =
      match o with
      | none => s1.tagIdx
      | some old => remTags item.id old.tags s1.tagIdx := by
  cases o with
  | none => rfl
  | some old => rw [cleanupOld]; simp [remOldType_tagIdx]

theorem SaveItem_records (s : Store) (item : Item) (k : String) :
    (SaveItem s item).records k =
      if k = item.id then some item else s.records k := by
  show (saveCleaned s item).records k = _
  rw [saveCleaned, cleanupOld_records]
  rfl

theorem SaveItem_mem_items (s : Store) (item : Item) (y : String) :
    y ∈ (SaveItem s item).items ↔ y ∈ s.items ∨ y = item.id := by
  show y ∈ (saveCleaned s item).items ↔ _
  rw [saveCleaned, cleanupOld_items]
  exact mem_sadd s.items item.id y

theorem SaveItem_mem_typeIdx_none (s : Store) (item : Item) (t y : String)
    (h : s.records item.id = none) :
    y ∈ (SaveItem s item).typeIdx t ↔
      y ∈ s.typeIdx t ∨ (t = item.type ∧ y = item.id) := by
  show y ∈ idxAdd (saveCleaned s item).typeIdx item.type item.id t ↔ _
  rw [mem_idxAdd, saveCleaned, cleanupOld_typeIdx, saveOld_eq, h]
  exact Iff.rfl

theorem SaveItem_mem_typeIdx_some (s : Store) (item old : Item) (t y : String)
    (h : s.records item.id = some old) :
    y ∈ (SaveItem s item).typeIdx t ↔
      (y ∈ s.typeIdx t ∧ ¬(old.type ≠ item.type ∧ t = old.type ∧ y = item.id)) ∨
        (t = item.type ∧ y = item.id) := by
  show y ∈ idxAdd (saveCleaned s item).typeIdx item.type item.id t ↔ _
  rw [mem_idxAdd, saveCleaned, cleanupOld_typeIdx, saveOld_eq, h]
  by_cases hty : old.type ≠ item.type
  · simp only [if_pos hty, mem_idxRem]
    tauto
  · simp only [if_neg hty]
    tauto

theorem SaveItem_mem_tagIdx_none (s : Store) (item : Item) (g y : String)
    (h : s.records item.id = none) :
    y ∈ (SaveItem s item).tagIdx g ↔
      y ∈ s.tagIdx g ∨ (g ∈ item.tags ∧ y = item.id) := by
  show y ∈ addTags item.id item.tags (saveCleaned s item).tagIdx g ↔ _
  rw [mem_addTags, saveCleaned, cleanupOld_tagIdx, saveOld_eq, h]
  exact Iff.rfl

theorem SaveItem_mem_tagIdx_some (s : Store) (item old : Item) (g y : String)
    (h : s.records item.id = some old) :
    y ∈ (SaveItem s item).tagIdx g ↔
      (y ∈ s.tagIdx g ∧ ¬(g ∈ old.tags ∧ y = item.id)) ∨
        (g ∈ item.tags ∧ y = item.id) := by
  show y ∈ addTags item.id item.tags (saveCleaned s item).tagIdx g ↔ _
  rw [mem_addTags, saveCleaned, cleanupOld_tagIdx, saveOld_eq, h, mem_remTags]
  exact Iff.rfl

/-! ### Field-level characterization of DeleteItem -/

theorem DeleteItem_none (s : Store) (id : String) (h : s.records id = none) :
    DeleteItem s id = Except.error Err.notFound := by
  rw [DeleteItem, GetItem, h]

theorem DeleteItem_some (s : Store) (id : String) (item : Item)
    (h : s.records id = some item) :
    DeleteItem s id = Except.ok (deleteState s id item) := by
  rw [DeleteItem, GetItem, h]

theorem deleteState_records (s : Store) (id : String) (item : Item) (k : String) :
    (deleteState s id item).records k = if k = id then none else s.records k := rfl

theorem deleteState_mem_items (s : Store) (id : String) (item : Item) (y : String) :
    y ∈ (deleteState s id item).items ↔ y ∈ s.items ∧ y ≠ id :=
  mem_srem s.items id y

theorem deleteState_mem_typeIdx (s : Store) (id : String) (item : Item)
    (t y : String) :
    y ∈ (deleteState s id item).typeIdx t ↔
      y ∈ s.typeIdx t ∧ ¬(t = item.type ∧ y = id) :=
  mem_idxRem s.typeIdx item.type id t y

theorem deleteState_mem_tagIdx (s : Store) (id : String) (item : Item)
    (g y : String) :
    y ∈ (deleteState s id item).tagIdx g ↔
      y ∈ s.tagIdx g ∧ ¬(g ∈ item.tags ∧ y = id) :=
  mem_remTags item.tags id s.tagIdx g y

/-! ### Preservation of well-formedness by every operation -/

theorem wf_empty : Wf emptyStore := by
  constructor
  · intro id; simp [emptyStore]
  · intro id it h; simp [emptyStore] at h
  · intro t id; simp [emptyStore]
  · intro g id; simp [emptyStore]

theorem wf_save (s : Store) (item : Item) (hwf : Wf s) : Wf (SaveItem s item) := by
  constructor
  · intro y
    rw [SaveItem_mem_items, SaveItem_records, hwf.items_live y]
    by_cases hy : y = item.id <;> simp [hy]
  · intro y it h
    rw [SaveItem_records] at h
    by_cases hy : y = item.id
    · rw [if_pos hy] at h
      cases h
      exact hy.symm
    · rw [if_neg hy] at h
      exact hwf.key_consistent y it h
  · intro t y
    cases hrec : s.records item.id with
    | none =>
        rw [SaveItem_mem_typeIdx_none s item t y hrec, hwf.typeIdx_exact t y,
          SaveItem_records]
        by_cases hy : y = item.id
        · subst hy
          simp [hrec]
          tauto
        · simp [hy]
    | some old =>
        rw [SaveItem_mem_typeIdx_some s item old t y hrec, hwf.typeIdx_exact t y,
          SaveItem_records]
        by_cases hy : y = item.id
        · subst hy
          simp [hrec]
          by_cases hto : old.type = item.type
          · rw [hto]
            constructor
            · rintro (⟨h1, _⟩ | h1)
              · exact h1
              · exact h1.symm
            · intro h1
              exact Or.inr h1.symm
          · constructor
            · rintro (⟨h1, h2⟩ | h1)
              · exact absurd h1.symm (h2 hto)
              · exact h1.symm
            · intro h1
              exact Or.inr h1.symm
        · simp [hy]
  · intro g y
    cases hrec : s.records item.id with
    | none =>
        rw [SaveItem_mem_tagIdx_none s item g y hrec, hwf.tagIdx_exact g y,
          SaveItem_records]
        by_cases hy : y = item.id
        · subst hy
          simp [hrec]
        · simp [hy]
    | some old =>
        rw [SaveItem_mem_tagIdx_some s item old g y hrec, hwf.tagIdx_exact g y,
          SaveItem_records]
        by_cases hy : y = item.id
        · subst hy
          simp [hrec]
        · simp [hy]

theorem wf_delete (s : Store) (id : String) (item : Item) (hwf : Wf s)
    (h : s.records id = some item) : Wf (deleteState s id item) := by
  constructor
  · intro y
    rw [deleteState_mem_items, deleteState_records, hwf.items_live y]
    by_cases hy : y = id <;> simp [hy]
  · intro y it hrec
    rw [deleteState_records] at hrec
    by_cases hy : y = id
    · rw [if_pos hy] at hrec
      cases hrec
    · rw [if_neg hy] at hrec
      exact hwf.key_consistent y it hrec
  · intro t y
    rw [deleteState_mem_typeIdx, deleteState_records, hwf.typeIdx_exact t y]
    by_cases hy : y = id
    · subst hy
      simp [h]
      intro hti
      exact hti.symm
    · simp [hy]
  · intro g y
    rw [deleteState_mem_tagIdx, deleteState_records, hwf.tagIdx_exact g y]
    by_cases hy : y = id
    · subst hy
      simp [h]
    · simp [hy]

theorem wf_applyOp (s : Store) (op : Op) (hwf : Wf s) : Wf (applyOp s op) := by
  cases op with
  | save item => exact wf_save s item hwf
  | del id =>
      show Wf (match DeleteItem s id with
        | Except.ok s2 => s2
        | Except.error _ => s)
      cases hrec : s.records id with
      | none => rw [DeleteItem_none s id hrec]; exact hwf
      | some item => rw [DeleteItem_some s id item hrec]; exact wf_delete s id item hwf hrec

theorem wf_runFrom (ops : List Op) (s : Store) (hwf : Wf s) :
    Wf (ops.foldl applyOp s) := by
  induction ops generalizing s with
  | nil => exact hwf
  | cons op rest ih => exact ih (applyOp s op) (wf_applyOp s op hwf)

theorem reachable_wf (s : Store) (hr : Reachable s) : Wf s := by
  obtain ⟨ops, rfl⟩ := hr
  exact wf_runFrom ops emptyStore wf_empty

/-! ### Characterization of the id selection and fetch of ListItems -/

theorem mem_fetchItems (s : Store) (ids : List String) (it : Item) :
    it ∈ fetchItems s ids ↔ ∃ id, id ∈ ids ∧ s.records id = some it := by
  simp [fetchItems, List.mem_filterMap]

theorem mem_foldl_sinter (s : Store) (rest : List SetKey) (init : List String)
    (y : String) :
    y ∈ rest.foldl (fun acc k2 => sinter acc (smembers s k2)) init ↔
      y ∈ init ∧ ∀ k2 ∈ rest, y ∈ smembers s k2 := by
  induction rest generalizing init with
  | nil => simp
  | cons k ks ih =>
      rw [List.foldl_cons, ih, mem_sinter]
      simp only [List.mem_cons]
      constructor
      · rintro ⟨⟨h1, h2⟩, h3⟩
        exact ⟨h1, fun k2 hk2 => by
          rcases hk2 with rfl | hk2
          · exact h2
          · exact h3 k2 hk2⟩
      · rintro ⟨h1, h2⟩
        exact ⟨⟨h1, h2 k (Or.inl rfl)⟩, fun k2 hk2 => h2 k2 (Or.inr hk2)⟩

theorem mem_interSets_cons (s : Store) (k : SetKey) (rest : List SetKey)
    (y : String) :
    y ∈ interSets s (k :: rest) ↔
      y ∈ smembers s k ∧ ∀ k2 ∈ rest, y ∈ smembers s k2 := by
  cases rest with
  | nil => simp [interSets]
  | cons k2 ks =>
      rw [show interSets s (k :: k2 :: ks) =
            (k2 :: ks).foldl (fun acc kk => sinter acc (smembers s kk))
              (smembers s k) from rfl,
        mem_foldl_sinter]

theorem selectIds_no_filters (s : Store) : selectIds s "" [] = s.items := rfl

theorem mem_selectIds (s : Store) (tf : String) (gs : List String) (y : String)
    (h : ¬(tf = "" ∧ gs = [])) :
    y ∈ selectIds s tf gs ↔
      (tf ≠ "" → y ∈ s.typeIdx tf) ∧ ∀ g ∈ gs, y ∈ s.tagIdx g := by
  unfold selectIds
  by_cases htf : tf = ""
  · subst htf
    rw [if_neg (by simp)]
    cases gs with
    | nil => exact absurd ⟨rfl, rfl⟩ h
    | cons g gs2 =>
        rw [List.nil_append, List.map_cons, mem_interSets_cons]
        simp [smembers]
  · rw [if_pos htf, List.cons_append, List.nil_append, mem_interSets_cons]
    simp [smembers, htf]

theorem mem_listItems_wf (s : Store) (hwf : Wf s) (tf : String)
    (gs : List String) (it : Item) :
    it ∈ ListItems s tf gs ↔
      s.records it.id = some it ∧ (tf = "" ∨ it.type = tf) ∧
        ∀ g ∈ gs, g ∈ it.tags := by
  rw [ListItems, mem_fetchItems]
  by_cases h : tf = "" ∧ gs = []
  · obtain ⟨rfl, rfl⟩ := h
    rw [selectIds_no_filters]
    constructor
    · rintro ⟨id, hid, hrec⟩
      have hk := hwf.key_consistent id it hrec
      subst hk
      exact ⟨hrec, Or.inl rfl, by simp⟩
    · rintro ⟨hrec, -, -⟩
      exact ⟨it.id, (hwf.items_live it.id).mpr (by rw [hrec]; rfl), hrec⟩
  · constructor
    · rintro ⟨id, hid, hrec⟩
      have hk := hwf.key_consistent id it hrec
      subst hk
      rw [mem_selectIds s tf gs it.id h] at hid
      obtain ⟨hty, htags⟩ := hid
      refine ⟨hrec, ?_, ?_⟩
      · by_cases htf : tf = ""
        · exact Or.inl htf
        · obtain ⟨it2, hrec2, hty2⟩ := (hwf.typeIdx_exact tf it.id).mp (hty htf)
          rw [hrec] at hrec2
          cases hrec2
          exact Or.inr hty2
      · intro g hg
        obtain ⟨it2, hrec2, hmem⟩ := (hwf.tagIdx_exact g it.id).mp (htags g hg)
        rw [hrec] at hrec2
        cases hrec2
        exact hmem
    · rintro ⟨hrec, hty, htags⟩
      refine ⟨it.id, ?_, hrec⟩
      rw [mem_selectIds s tf gs it.id h]
      refine ⟨?_, ?_⟩
      · intro htf
        rcases hty with htf2 | hty2
        · exact absurd htf2 htf
        · exact (hwf.typeIdx_exact tf it.id).mpr ⟨it, hrec, hty2⟩
      · intro g hg
        exact (hwf.tagIdx_exact g it.id).mpr ⟨it, hrec, htags g hg⟩

/-- The two ListItems versions agree when no tag filters are given: both
enumerate the all-items set (no type filter) or the one type index. -/
theorem listItemsV0_eq (s : Store) (tf : String) :
    ListItemsV0 s tf = ListItems s tf [] := by
  unfold ListItemsV0 ListItems selectIds
  by_cases htf : tf = ""
  · rw [if_pos htf, if_neg (by simp [htf])]
    rfl
  · rw [if_neg htf, if_pos htf]
    rfl

theorem mem_listItemsV0_wf (s : Store) (hwf : Wf s) (tf : String) (it : Item) :
    it ∈ ListItemsV0 s tf ↔
      s.records it.id = some it ∧ (tf = "" ∨ it.type = tf) := by
  rw [listItemsV0_eq, mem_listItems_wf s hwf tf [] it]
  simp

/-! ### Concrete fixtures (the worked example of the spec: three items of
types a, a, b carrying tags red, blue, red) -/

def item1 : Item :=
  { id := "i1", type := "a", tags := ["red"], data := "{}",
    createdAt := 0, lastModified := 0 }

def item2 : Item :=
  { id := "i2", type := "a", tags := ["blue"], data := "{}",
    createdAt := 0, lastModified := 0 }

def item3 : Item :=
  { id := "i3", type := "b", tags := ["red"], data := "{}",
    createdAt := 0, lastModified := 0 }

/-- An updated version of item1: type changed from a to b, tags changed
from red to green. -/
def item4 : Item :=
  { id := "i1", type := "b", tags := ["green"], data := "[1]",
    createdAt := 0, lastModified := 1 }

/-- An item whose data field is a valid JSON value whose bytes contain
insignificant whitespace. -/
def item5 : Item :=
  { id := "i5", type := "a", tags := [], data := "[1, 2]",
    createdAt := 0, lastModified := 0 }

def ops3 : List Op := [Op.save item1, Op.save item2, Op.save item3]

def st3 : Store := runOps ops3

def ops4 : List Op := [Op.save item1, Op.save item2, Op.del "i1"]

def st4 : Store := runOps ops4

/-- A store whose all-items index holds an identifier with no record
(the state `ListItems` can observe when a concurrent delete lands between
its index read and its fetch). -/
def ghostStore : Store :=
  { records := fun _ => none
    items := ["ghost"]
    typeIdx := fun _ => []
    tagIdx := fun _ => [] }

/-! ### The claims -/

/-- Claim C1: after a successful save of item `i` on a (reachable) store
state, the identifier of `i` is a member of the all-items index, of the
index of its new type and of no other type index, and of the indexes of
exactly its new tags — even when a previously stored version of `i` had a
different type or different tags. -/
theorem save_index_membership_exact (s : Store) (item : Item)
    (hr : Reachable s) :
    item.id ∈ (SaveItem s item).items ∧
    (∀ t, item.id ∈ (SaveItem s item).typeIdx t ↔ t = item.type) ∧
    (∀ g, item.id ∈ (SaveItem s item).tagIdx g ↔ g ∈ item.tags) := by
  have hwf2 := wf_save s item (reachable_wf s hr)
  have hrec : (SaveItem s item).records item.id = some item := by
    rw [SaveItem_records, if_pos rfl]
  refine ⟨?_, ?_, ?_⟩
  · rw [hwf2.items_live, hrec]
    rfl
  · intro t
    rw [hwf2.typeIdx_exact]
    constructor
    · rintro ⟨it, hit, h2⟩
      rw [hrec] at hit
      cases hit
      exact h2.symm
    · rintro rfl
      exact ⟨item, hrec, rfl⟩
  · intro g
    rw [hwf2.tagIdx_exact]
    constructor
    · rintro ⟨it, hit, h2⟩
      rw [hrec] at hit
      cases hit
      exact h2
    · intro h2
      exact ⟨item, hrec, h2⟩

theorem save_index_membership_exact_witness :
    item4.id ∈ (SaveItem st3 item4).items ∧
    (item4.id ∈ (SaveItem st3 item4).typeIdx "a" ↔ "a" = item4.type) ∧
    (item4.id ∈ (SaveItem st3 item4).tagIdx "red" ↔ "red" ∈ item4.tags) :=
  ⟨(save_index_membership_exact st3 item4 ⟨ops3, rfl⟩).1,
   (save_index_membership_exact st3 item4 ⟨ops3, rfl⟩).2.1 "a",
   (save_index_membership_exact st3 item4 ⟨ops3, rfl⟩).2.2 "red"⟩

/-- Claim C2: saving an updated version of a stored item whose type changed
from A to B removes the identifier from type A's index and adds it to type
B's index; after the save the identifier is in B's index, not in A's, and
never in both at once. This needs no reachability assumption: the cleanup
SREM and the SADD act on the two indexes directly. -/
theorem save_type_change_moves_index (s : Store) (item old : Item)
    (hold : s.records item.id = some old) (hne : old.type ≠ item.type) :
    item.id ∈ (SaveItem s item).typeIdx item.type ∧
    item.id ∉ (SaveItem s item).typeIdx old.type ∧
    ¬(item.id ∈ (SaveItem s item).typeIdx old.type ∧
        item.id ∈ (SaveItem s item).typeIdx item.type) := by
  have h1 : item.id ∈ (SaveItem s item).typeIdx item.type := by
    rw [SaveItem_mem_typeIdx_some s item old item.type item.id hold]
    exact Or.inr ⟨rfl, rfl⟩
  have h2 : item.id ∉ (SaveItem s item).typeIdx old.type := by
    rw [SaveItem_mem_typeIdx_some s item old old.type item.id hold]
    rintro (⟨-, hc⟩ | ⟨hc, -⟩)
    · exact hc ⟨hne, rfl, rfl⟩
    · exact hne hc
  exact ⟨h1, h2, fun hc => h2 hc.1⟩

theorem save_type_change_moves_index_witness :
    item4.id ∈ (SaveItem st3 item4).typeIdx item4.type ∧
    item4.id ∉ (SaveItem st3 item4).typeIdx item1.type ∧
    ¬(item4.id ∈ (SaveItem st3 item4).typeIdx item1.type ∧
        item4.id ∈ (SaveItem st3 item4).typeIdx item4.type) :=
  save_type_change_moves_index st3 item4 item1 (by decide) (by decide)

/-- Claim C3: for every store state reached from the empty store by a
sequence of save and delete operations, the all-items index contains
exactly the identifiers that have a live stored record. -/
theorem allItems_index_exact (s : Store) (hr : Reachable s) (id : String) :
    id ∈ s.items ↔ (s.records id).isSome = true :=
  (reachable_wf s hr).items_live id

theorem allItems_index_exact_witness :
    ("i1" ∈ st4.items ↔ (st4.records "i1").isSome = true) ∧
    ("i2" ∈ st4.items ↔ (st4.records "i2").isSome = true) :=
  ⟨allItems_index_exact st4 ⟨ops4, rfl⟩ "i1",
   allItems_index_exact st4 ⟨ops4, rfl⟩ "i2"⟩

/-- Claim C4: deleting an identifier that has no stored record fails with
the distinguished not-found signal, and — since the failure happens before
any pipeline command is issued — the whole store state (records, all-items
index, every type index, every tag index) is left unchanged. -/
theorem delete_missing_notFound_unchanged (s : Store) (id : String)
    (h : s.records id = none) :
    DeleteItem s id = Except.error Err.notFound ∧
      applyOp s (Op.del id) = s := by
  refine ⟨DeleteItem_none s id h, ?_⟩
  show (match DeleteItem s id with
    | Except.ok s2 => s2
    | Except.error _ => s) = s
  rw [DeleteItem_none s id h]

theorem delete_missing_notFound_unchanged_witness :
    DeleteItem st3 "nope" = Except.error Err.notFound ∧
      applyOp st3 (Op.del "nope") = st3 :=
  delete_missing_notFound_unchanged st3 "nope" (by decide)

/-- Claim C5: on a (reachable) store state, `ListItems` returns exactly the
records selected by its filters: a record is returned iff it is live, its
type matches the type filter when one is given, and its tags include every
requested tag; with no filters at all this is every live record. -/
theorem listItems_filter_exact (s : Store) (hr : Reachable s) (tf : String)
    (gs : List String) (it : Item) :
    it ∈ ListItems s tf gs ↔
      s.records it.id = some it ∧ (tf = "" ∨ it.type = tf) ∧
        ∀ g ∈ gs, g ∈ it.tags :=
  mem_listItems_wf s (reachable_wf s hr) tf gs it

theorem listItems_filter_exact_witness :
    item1 ∈ ListItems st3 "a" ["red"] ∧
    item2 ∉ ListItems st3 "a" ["red"] ∧
    item3 ∉ ListItems st3 "a" ["red"] :=
  ⟨(listItems_filter_exact st3 ⟨ops3, rfl⟩ "a" ["red"] item1).mpr (by decide),
   by decide, by decide⟩

/-- Claim C6 (as stated) is false on the code: `handleListItems` reads only
the `type` query parameter and never the `tag` parameters. On the store
holding item1 (type a, tags [red]) and item2 (type a, tags [blue]), a GET
/items request with type=a and tag=red is answered with both records,
although item2 does not carry the requested tag. -/
theorem handleListItems_tag_filter_cex :
    handleListItems st3 { typeParam := "a", tagParams := ["red"] } =
      (200, [item1, item2]) ∧
    item2.type = "a" ∧ "red" ∉ item2.tags := by
  decide

/-- Claim C6 amended: an HTTP GET /items request returns status 200 with
exactly the records matching the type query parameter (all live records
when it is empty); the tag query parameters are ignored by the handler, so
the response is not narrowed by them. -/
theorem handleListItems_type_only (s : Store) (hr : Reachable s)
    (q : ListQuery) (it : Item) :
    (handleListItems s q).1 = 200 ∧
    (it ∈ (handleListItems s q).2 ↔
      s.records it.id = some it ∧ (q.typeParam = "" ∨ it.type = q.typeParam)) :=
  ⟨rfl, mem_listItemsV0_wf s (reachable_wf s hr) q.typeParam it⟩

theorem handleListItems_type_only_witness :
    (handleListItems st3 { typeParam := "a", tagParams := ["red"] }).1 = 200 ∧
    (item2 ∈ (handleListItems st3 { typeParam := "a", tagParams := ["red"] }).2 ↔
      st3.records item2.id = some item2 ∧ ("a" = "" ∨ item2.type = "a")) :=
  handleListItems_type_only st3 ⟨ops3, rfl⟩
    { typeParam := "a", tagParams := ["red"] } item2

/-- Claim C7 (as stated) is false on the code: json.Marshal runs the
json.RawMessage data field through its compact-and-escape step before
storage, so save followed by get does not return the data bytes verbatim.
Concretely, saving item5, whose data is the valid JSON value with bytes
containing an insignificant space (an array of the numbers 1 and 2), and
getting it back yields the compacted bytes, which differ from the original
ones. -/
theorem save_get_data_not_byte_identical :
    Except.map Item.data (GetItem (SaveItemBytes emptyStore item5) item5.id) =
      Except.ok "[1,2]" ∧
    Except.map Item.data (GetItem (SaveItemBytes emptyStore item5) item5.id) ≠
      Except.ok item5.data :=
  ⟨rfl, fun h => absurd (Except.ok.inj h) (by decide)⟩

/-- Claim C7 amended: saving an item and getting it back yields a data field
equal to the encoder's compact, HTML-escaped rendering of the original data
bytes — hence byte-for-byte identical exactly when the original bytes are
already in that form (no insignificant whitespace, the characters <, > and
& already escaped), and not in general. -/
theorem save_get_data_roundtrip_compact (s : Store) (item : Item) :
    Except.map Item.data (GetItem (SaveItemBytes s item) item.id) =
      Except.ok (marshalData item.data) := by
  have hrec : (SaveItemBytes s item).records item.id =
      some (marshalItem item) := by
    rw [SaveItemBytes, SaveItem_records]
    exact if_pos rfl
  rw [GetItem, hrec]
  rfl

/-- Claim C8: for a stored item and a valid update request, the update
handler replaces only type, tags and data, refreshes lastModified to the
request time, and leaves the identifier and createdAt exactly as they were;
the updated record is what the following save persists. -/
theorem update_preserves_id_createdAt (s : Store) (id : String)
    (req : UpdateItemRequest) (now : Nat) (item : Item)
    (hrec : s.records id = some item) (hty : trimSpace req.type ≠ "")
    (hdata : req.data ≠ "") :
    ∃ s2 item2,
      handleUpdateItem s id req now = Except.ok (s2, item2) ∧
      item2.id = item.id ∧ item2.createdAt = item.createdAt ∧
      item2.type = req.type ∧ item2.tags = req.tags ∧
      item2.data = req.data ∧ item2.lastModified = now ∧
      s2.records item2.id = some item2 := by
  rw [handleUpdateItem, if_neg (not_or.mpr ⟨hty, hdata⟩), GetItem, hrec]
  refine ⟨_, _, rfl, rfl, rfl, rfl, rfl, rfl, rfl, ?_⟩
  rw [SaveItem_records, if_pos rfl]

theorem update_preserves_id_createdAt_witness :
    ∃ s2 item2,
      handleUpdateItem st3 "i1" { type := "b", tags := ["green"], data := "[1]" }
          7 = Except.ok (s2, item2) ∧
      item2.id = item1.id ∧ item2.createdAt = item1.createdAt ∧
      item2.type = "b" ∧ item2.tags = ["green"] ∧
      item2.data = "[1]" ∧ item2.lastModified = 7 ∧
      s2.records item2.id = some item2 :=
  update_preserves_id_createdAt st3 "i1"
    { type := "b", tags := ["green"], data := "[1]" } 7 item1
    (by decide) (by decide) (by decide)

/-- Claim C9: for any store state — including one where an index holds an
identifier whose record is gone — the list operation silently skips every
identifier without a record instead of failing (only records that exist are
returned), and when no selected identifier has a record it returns the
empty list, never an error and never a null value (the embedding's result
type is a list, which has no null). -/
theorem listItems_skips_missing_records (s : Store) (tf : String)
    (gs : List String) :
    (∀ it, it ∈ ListItems s tf gs →
        ∃ id, id ∈ selectIds s tf gs ∧ s.records id = some it) ∧
    ((∀ id, id ∈ selectIds s tf gs → s.records id = none) →
        ListItems s tf gs = []) := by
  constructor
  · intro it hmem
    exact (mem_fetchItems s (selectIds s tf gs) it).mp hmem
  · intro hdead
    rw [ListItems]
    refine List.eq_nil_iff_forall_not_mem.mpr fun it hmem => ?_
    obtain ⟨id, hid, hrec⟩ := (mem_fetchItems _ _ _).mp hmem
    rw [hdead id hid] at hrec
    cases hrec

theorem listItems_skips_missing_records_witness :
    ListItems ghostStore "" [] = [] :=
  (listItems_skips_missing_records ghostStore "" []).2 fun _ _ => rfl

/-- Claim C10: for every store state and type filter, the `ListItems` of the
original store version (type filter only) returns the same result as the
`ListItems` of the tag-aware version called with that type filter and an
empty list of tag filters. -/
theorem listItems_v0_v1_agree (s : Store) (tf : String) :
    ListItemsV0 s tf = ListItems s tf [] :=
  listItemsV0_eq s tf

end Gocrud
